import Mathlib

/-!
Verification of the hmm-pipeline repository (`hmm_kunitz.py`).

The pipeline's own logic (beyond shelling out to Clustal Omega and HMMER)
consists of: selecting training sequences by substring matching on FASTA
descriptions (`select_human_kunitz`), building validation sets with a seeded
pseudo-random negative sample (`create_validation_sets`), parsing HMMER's
tabular output into a hit set (`parse_tblout`), and building label vectors
and classification metrics (`evaluate`).  This file gives a shallow
embedding of those functions and proves the specified properties.

Numeric E-values are modelled as rationals (`ℚ`): HMMER's textual E-values
are finite decimal/scientific literals, on which rational and IEEE ordering
agree for the comparisons performed here.
-/

namespace HmmPipeline

/-- A FASTA sequence record: identifier, free-text description, residues.
Mirrors the fields of Biopython's `SeqRecord` that the pipeline reads. -/
structure Record where
  id : String
  description : String
  seq : String
deriving DecidableEq, Inhabited

/-- Tests whether `pat` begins the character list `s`. -/
def startsWithChars (s pat : List Char) : Bool :=
  match s, pat with
  | _, [] => true
  | [], _ :: _ => false
  | c :: cs, p :: ps => c == p && startsWithChars cs ps

/-- Tests whether `pat` occurs contiguously inside `s`. -/
def occursIn (pat s : List Char) : Bool :=
  match s with
  | [] => pat.isEmpty
  | _ :: rest => startsWithChars s pat || occursIn pat rest

/-- Python `pat in s` substring test on strings. -/
def strContains (s pat : String) : Bool :=
  occursIn pat.toList s.toList

/-- Python `s.startswith(pat)`. -/
def pyStartsWith (s pat : String) : Bool :=
  startsWithChars s.toList pat.toList

/-- Python `s.lower()` on the ASCII text handled by the pipeline. -/
def lowerStr (s : String) : String :=
  String.mk (s.toList.map Char.toLower)

/-- Accumulator pass splitting a character list at whitespace runs,
keeping only nonempty words; `cur` holds the current word reversed. -/
def splitWsGo : List Char → List Char → List (List Char)
  | cur, [] => if cur.isEmpty then [] else [cur.reverse]
  | cur, c :: rest =>
    if c.isWhitespace then
      if cur.isEmpty then splitWsGo [] rest
      else cur.reverse :: splitWsGo [] rest
    else splitWsGo (c :: cur) rest

/-- Python `line.strip().split()`: split on whitespace runs, dropping empty
tokens (stripping first and then splitting on runs yields exactly the
nonempty maximal whitespace-free words of the line). -/
def pySplit (line : String) : List String :=
  (splitWsGo [] line.toList).map (fun w => String.mk w)

/-- Numeric value of a digit string (most significant first). -/
def digitsVal (ds : List Char) : Nat :=
  ds.foldl (fun a c => 10 * a + (c.toNat - 48)) 0

/-- Python `float(s)` on finite decimal and scientific-notation literals,
returning `none` where `float` raises `ValueError` (the model of the
`try: float(parts[4]) except ValueError` in `parse_tblout`).  Grammar:
optional sign, digits with optional fractional part (at least one digit
overall), optional exponent `e`/`E` with optional sign and digits; any
other input is rejected. -/
def pyFloat? (s : String) : Option ℚ :=
  let cs := s.toList
  let signRest : ℚ × List Char :=
    match cs with
    | '-' :: rest => (-1, rest)
    | '+' :: rest => (1, rest)
    | _ => (1, cs)
  let sign := signRest.1
  let cs1 := signRest.2
  let intPart := cs1.takeWhile Char.isDigit
  let cs2 := cs1.dropWhile Char.isDigit
  let fracRest : List Char × List Char :=
    match cs2 with
    | '.' :: rest => (rest.takeWhile Char.isDigit, rest.dropWhile Char.isDigit)
    | _ => ([], cs2)
  let fracPart := fracRest.1
  let cs3 := fracRest.2
  if intPart.isEmpty && fracPart.isEmpty then none
  else
    let mant : ℚ :=
      (digitsVal intPart : ℚ) + (digitsVal fracPart : ℚ) / (10 : ℚ) ^ fracPart.length
    match cs3 with
    | [] => some (sign * mant)
    | c :: rest =>
      if c = 'e' || c = 'E' then
        let expSignRest : Bool × List Char :=
          match rest with
          | '-' :: r => (true, r)
          | '+' :: r => (false, r)
          | _ => (false, rest)
        let eds := expSignRest.2.takeWhile Char.isDigit
        let tail := expSignRest.2.dropWhile Char.isDigit
        if eds.isEmpty || !tail.isEmpty then none
        else if expSignRest.1 then some (sign * mant / (10 : ℚ) ^ digitsVal eds)
        else some (sign * mant * (10 : ℚ) ^ digitsVal eds)
      else none

/-- One iteration of the `for line in f` loop body of `parse_tblout`:
skip comment lines starting with `#`, split the line, and when it has
more than four fields and field 4 parses as a number `≤ cutoff`, add the
first field to the hit set. -/
def tbloutStep (cutoff : ℚ) (hits : Finset String) (line : String) : Finset String :=
  if pyStartsWith line "#" then hits
  else
    let parts := pySplit line
    if 4 < parts.length then
      match pyFloat? (parts.getD 4 "") with
      | some evalue => if evalue ≤ cutoff then insert (parts.getD 0 "") hits else hits
      | none => hits
    else hits

/-- Embedding of `parse_tblout(tblout_file, evalue_cutoff)`: the file is
given as its list of lines, the result is the hit set. -/
def parse_tblout (lines : List String) (cutoff : ℚ) : Finset String :=
  lines.foldl (tbloutStep cutoff) ∅

/-- A line contributes a hit: not a comment, more than four fields, and
field 4 parses to a value within the cutoff. -/
def lineHit (cutoff : ℚ) (line : String) : Prop :=
  pyStartsWith line "#" = false ∧ 4 < (pySplit line).length ∧
    ∃ evalue, pyFloat? ((pySplit line).getD 4 "") = some evalue ∧ evalue ≤ cutoff

theorem mem_tbloutStep (cutoff : ℚ) (hits : Finset String) (line : String) (x : String) :
    x ∈ tbloutStep cutoff hits line ↔
      x ∈ hits ∨ (lineHit cutoff line ∧ (pySplit line).getD 0 "" = x) := by
  unfold tbloutStep lineHit
  by_cases hc : pyStartsWith line "#"
  · simp [hc]
  · simp only [Bool.not_eq_true] at hc
    simp only [hc, Bool.false_eq_true, if_false]
    by_cases hl : 4 < (pySplit line).length
    · simp only [hl, if_true]
      cases hev : pyFloat? ((pySplit line).getD 4 "") with
      | none => simp [hev]
      | some v =>
          by_cases hle : v ≤ cutoff
          · simp [hle, hl, Finset.mem_insert, eq_comm, and_true, true_and]
            tauto
          · simp only [hle, if_false]
            simp [hle]
    · simp only [hl, if_false]
      simp [hl]

theorem mem_foldl_tbloutStep (cutoff : ℚ) (lines : List String)
    (acc : Finset String) (x : String) :
    x ∈ lines.foldl (tbloutStep cutoff) acc ↔
      x ∈ acc ∨ ∃ line ∈ lines, lineHit cutoff line ∧ (pySplit line).getD 0 "" = x := by
  induction lines generalizing acc with
  | nil => simp
  | cons l ls ih =>
      rw [List.foldl_cons, ih]
      rw [mem_tbloutStep]
      simp only [List.mem_cons]
      constructor
      · rintro ((hx | ⟨hhit, hfst⟩) | ⟨line, hmem, hhit, hfst⟩)
        · exact Or.inl hx
        · exact Or.inr ⟨l, Or.inl rfl, hhit, hfst⟩
        · exact Or.inr ⟨line, Or.inr hmem, hhit, hfst⟩
      · rintro (hx | ⟨line, hl' | hmem, hhit, hfst⟩)
        · exact Or.inl (Or.inl hx)
        · exact Or.inl (Or.inr ⟨hl' ▸ hhit, hl' ▸ hfst⟩)
        · exact Or.inr ⟨line, hmem, hhit, hfst⟩

theorem mem_parse_tblout (lines : List String) (cutoff : ℚ) (x : String) :
    x ∈ parse_tblout lines cutoff ↔
      ∃ line ∈ lines, lineHit cutoff line ∧ (pySplit line).getD 0 "" = x := by
  rw [parse_tblout, mem_foldl_tbloutStep]
  simp

/-- C1: `parse_tblout` returns exactly the set of distinct first-column
identifiers taken from lines that do not start with `#`, split into more
than four whitespace-delimited fields, and whose field at 0-indexed
position 4 parses as a number less than or equal to the threshold; the
comparison is `≤`, so a row whose E-value equals the cutoff exactly is
included. -/
theorem parse_tblout_exact_hit_set (lines : List String) (cutoff : ℚ) (x : String) :
    x ∈ parse_tblout lines cutoff ↔
      ∃ line ∈ lines, pyStartsWith line "#" = false ∧ 4 < (pySplit line).length ∧
        (∃ evalue, pyFloat? ((pySplit line).getD 4 "") = some evalue ∧ evalue ≤ cutoff) ∧
        (pySplit line).getD 0 "" = x := by
  rw [mem_parse_tblout]
  apply exists_congr
  intro line
  unfold lineHit
  tauto

/-- Witness for C1 at a concrete input, cutoff and identifier. -/
theorem parse_tblout_exact_hit_set_witness :
    "A" ∈ parse_tblout ["A b c d 0"] 0 ↔
      ∃ line ∈ (["A b c d 0"] : List String), pyStartsWith line "#" = false ∧
        4 < (pySplit line).length ∧
        (∃ evalue, pyFloat? ((pySplit line).getD 4 "") = some evalue ∧ evalue ≤ 0) ∧
        (pySplit line).getD 0 "" = "A" :=
  parse_tblout_exact_hit_set ["A b c d 0"] 0 "A"

/-- C2: for a fixed input and cutoffs `c1 ≤ c2`, the hit set at `c1` is a
subset of the hit set at `c2`, and hence has no larger cardinality: the
hit set shrinks monotonically as the cutoff decreases. -/
theorem parse_tblout_monotone (lines : List String) (c1 c2 : ℚ) (h : c1 ≤ c2) :
    parse_tblout lines c1 ⊆ parse_tblout lines c2 ∧
      (parse_tblout lines c1).card ≤ (parse_tblout lines c2).card := by
  have hsub : parse_tblout lines c1 ⊆ parse_tblout lines c2 := by
    intro x hx
    rw [mem_parse_tblout] at hx ⊢
    obtain ⟨line, hmem, ⟨hc, hl, v, hv, hle⟩, hfst⟩ := hx
    exact ⟨line, hmem, ⟨hc, hl, v, hv, hle.trans h⟩, hfst⟩
  exact ⟨hsub, Finset.card_le_card hsub⟩

/-- Witness for C2 at a concrete input and cutoff pair. -/
theorem parse_tblout_monotone_witness :
    (0 : ℚ) ≤ 1 ∧
      (parse_tblout ["A b c d 0", "B b c d 1"] 0 ⊆ parse_tblout ["A b c d 0", "B b c d 1"] 1 ∧
        (parse_tblout ["A b c d 0", "B b c d 1"] 0).card ≤
          (parse_tblout ["A b c d 0", "B b c d 1"] 1).card) :=
  ⟨by norm_num, parse_tblout_monotone ["A b c d 0", "B b c d 1"] 0 1 (by norm_num)⟩

/-- C8: a non-comment line whose field at 0-indexed position 4 does not
parse as a number contributes nothing to the hit set and raises no error:
the result equals that on the input with the line removed. -/
theorem parse_tblout_skips_malformed (pre post : List String) (line : String) (cutoff : ℚ)
    (h1 : pyStartsWith line "#" = false)
    (h2 : pyFloat? ((pySplit line).getD 4 "") = none) :
    parse_tblout (pre ++ line :: post) cutoff = parse_tblout (pre ++ post) cutoff := by
  have hnot : ¬ lineHit cutoff line := by
    rintro ⟨-, -, v, hv, -⟩
    rw [h2] at hv
    exact Option.noConfusion hv
  ext x
  rw [mem_parse_tblout, mem_parse_tblout]
  constructor
  · rintro ⟨l, hmem, hhit, hfst⟩
    rcases List.mem_append.1 hmem with hm | hm
    · exact ⟨l, List.mem_append.2 (Or.inl hm), hhit, hfst⟩
    · rcases List.mem_cons.1 hm with rfl | hm
      · exact absurd hhit hnot
      · exact ⟨l, List.mem_append.2 (Or.inr hm), hhit, hfst⟩
  · rintro ⟨l, hmem, hhit, hfst⟩
    rcases List.mem_append.1 hmem with hm | hm
    · exact ⟨l, List.mem_append.2 (Or.inl hm), hhit, hfst⟩
    · exact ⟨l, List.mem_append.2 (Or.inr (List.mem_cons_of_mem _ hm)), hhit, hfst⟩

/-- Witness for C8 at a concrete malformed line. -/
theorem parse_tblout_skips_malformed_witness :
    pyStartsWith "B b c d xx" "#" = false ∧
      pyFloat? ((pySplit "B b c d xx").getD 4 "") = none ∧
      parse_tblout (["A b c d 0"] ++ "B b c d xx" :: ["C b c d 1"]) (1 / 2) =
        parse_tblout (["A b c d 0"] ++ ["C b c d 1"]) (1 / 2) :=
  ⟨by decide, by decide,
    parse_tblout_skips_malformed ["A b c d 0"] ["C b c d 1"] "B b c d xx" (1 / 2)
      (by decide) (by decide)⟩

/-- Ground-truth label vector built by `evaluate`:
`[1] * len(pos_ids) + [0] * len(neg_ids)`. -/
def y_true (pos neg : List String) : List Nat :=
  List.replicate pos.length 1 ++ List.replicate neg.length 0

/-- Predicted label of one identifier: `1 if i in hits else 0`. -/
def predLabel (hits : Finset String) (i : String) : Nat :=
  if i ∈ hits then 1 else 0

/-- Predicted label vector built by `evaluate`: the predicted labels of the
positive identifiers followed by those of the negative identifiers. -/
def y_pred (hits : Finset String) (pos neg : List String) : List Nat :=
  pos.map (predLabel hits) ++ neg.map (predLabel hits)

/-- Modelled from the spec: the confusion-matrix tally used by the external
metric library (`confusion_matrix` and friends) — the number of positions
where the true label is `a` and the predicted label is `b`. -/
def countPairs : List Nat → List Nat → Nat → Nat → Nat
  | t :: ts, p :: ps, a, b => (if t = a ∧ p = b then 1 else 0) + countPairs ts ps a b
  | _, _, _, _ => 0

/-- Modelled from the spec: `precision = TP/(TP+FP)`, with the metric
library's zero-division convention of returning 0 when no positives are
predicted (`sklearn.metrics.precision_score`). -/
def precision_score (yt yp : List Nat) : ℚ :=
  let tp := countPairs yt yp 1 1
  let fp := countPairs yt yp 0 1
  if tp + fp = 0 then 0 else (tp : ℚ) / ((tp : ℚ) + (fp : ℚ))

/-- Modelled from the spec: `recall = TP/(TP+FN)`, with the zero-division
convention of returning 0 (`sklearn.metrics.recall_score`). -/
def recall_score (yt yp : List Nat) : ℚ :=
  let tp := countPairs yt yp 1 1
  let fn := countPairs yt yp 1 0
  if tp + fn = 0 then 0 else (tp : ℚ) / ((tp : ℚ) + (fn : ℚ))

/-- Modelled from the spec: `F1 = 2·precision·recall/(precision+recall)`,
with the zero-division convention of returning 0 (`sklearn.metrics.f1_score`). -/
def f1_score (yt yp : List Nat) : ℚ :=
  let p := precision_score yt yp
  let r := recall_score yt yp
  if p + r = 0 then 0 else 2 * p * r / (p + r)

/-- Modelled from the spec: `accuracy = (TP+TN)/total`
(`sklearn.metrics.accuracy_score`). -/
def accuracy_score (yt yp : List Nat) : ℚ :=
  if yt.length = 0 then 0 else
    ((countPairs yt yp 1 1 : ℚ) + (countPairs yt yp 0 0 : ℚ)) / (yt.length : ℚ)

theorem countPairs_append (yt1 yt2 yp1 yp2 : List Nat) (h : yt1.length = yp1.length)
    (a b : Nat) :
    countPairs (yt1 ++ yt2) (yp1 ++ yp2) a b =
      countPairs yt1 yp1 a b + countPairs yt2 yp2 a b := by
  induction yt1 generalizing yp1 with
  | nil =>
      have hnil : yp1 = [] := List.eq_nil_of_length_eq_zero h.symm
      subst hnil
      simp [countPairs]
  | cons x xs ih =>
      cases yp1 with
      | nil => exact absurd h (by simp)
      | cons y ys =>
          have hl : xs.length = ys.length := by simpa using h
          have ihh := ih ys hl
          simp only [List.cons_append, countPairs, List.append_eq] at ihh ⊢
          omega

theorem countPairs_replicate (n : Nat) (x y a b : Nat) :
    countPairs (List.replicate n x) (List.replicate n y) a b =
      if x = a ∧ y = b then n else 0 := by
  induction n with
  | zero => simp [countPairs]
  | succ m ih =>
      simp only [List.replicate_succ, countPairs, ih]
      split <;> omega

theorem map_predLabel_all_in (hits : Finset String) (l : List String)
    (h : ∀ i ∈ l, i ∈ hits) :
    l.map (predLabel hits) = List.replicate l.length 1 := by
  induction l with
  | nil => simp
  | cons x xs ih =>
      have hx : x ∈ hits := h x (List.mem_cons_self x xs)
      simp only [List.map_cons, predLabel, hx, if_true, List.length_cons,
        List.replicate_succ]
      exact congrArg _ (ih fun i hi => h i (List.mem_cons_of_mem x hi))

theorem map_predLabel_all_out (hits : Finset String) (l : List String)
    (h : ∀ i ∈ l, i ∉ hits) :
    l.map (predLabel hits) = List.replicate l.length 0 := by
  induction l with
  | nil => simp
  | cons x xs ih =>
      have hx : x ∉ hits := h x (List.mem_cons_self x xs)
      simp only [List.map_cons, predLabel, hx, if_false, List.length_cons,
        List.replicate_succ]
      exact congrArg _ (ih fun i hi => h i (List.mem_cons_of_mem x hi))

/-- C3: the evaluator builds two label vectors of equal length, the
ground-truth vector being all 1s for the positives followed by all 0s for
the negatives, and at every position the predicted label is 1 exactly when
the identifier at that position belongs to the hit set. -/
theorem evaluate_label_vectors (hits : Finset String) (pos neg : List String) (k : Nat)
    (hk : k < (y_true pos neg).length) :
    (y_true pos neg).length = (y_pred hits pos neg).length ∧
      y_true pos neg = List.replicate pos.length 1 ++ List.replicate neg.length 0 ∧
      ((y_pred hits pos neg).getD k 0 = 1 ↔ (pos ++ neg).getD k "" ∈ hits) := by
  have hlen : (y_true pos neg).length = (y_pred hits pos neg).length := by
    simp [y_true, y_pred]
  refine ⟨hlen, rfl, ?_⟩
  have hmap : y_pred hits pos neg = (pos ++ neg).map (predLabel hits) := by
    simp [y_pred, List.map_append]
  have hk' : k < (pos ++ neg).length := by
    simpa [y_true, List.length_append] using hk
  rw [hmap, List.getD_eq_getElem _ _ (by simpa using hk'), List.getElem_map,
    List.getD_eq_getElem _ _ hk']
  unfold predLabel
  split
  next h => simp [h]
  next h => simp [h]

/-- Witness for C3 at a concrete hit set, identifier lists and position. -/
theorem evaluate_label_vectors_witness :
    0 < (y_true ["a"] ["b"]).length ∧
      ((y_true ["a"] ["b"]).length = (y_pred {"a"} ["a"] ["b"]).length ∧
        y_true ["a"] ["b"] = List.replicate (["a"] : List String).length 1 ++
          List.replicate (["b"] : List String).length 0 ∧
        ((y_pred {"a"} ["a"] ["b"]).getD 0 0 = 1 ↔
          ((["a"] : List String) ++ ["b"]).getD 0 "" ∈ ({"a"} : Finset String))) :=
  ⟨by decide, evaluate_label_vectors {"a"} ["a"] ["b"] 0 (by decide)⟩

theorem y_pred_of_hits_eq_pos (pos neg : List String)
    (hdisj : ∀ x ∈ neg, x ∉ pos) :
    y_pred pos.toFinset pos neg = y_true pos neg := by
  unfold y_pred y_true
  rw [map_predLabel_all_in pos.toFinset pos (fun i hi => List.mem_toFinset.2 hi),
    map_predLabel_all_out pos.toFinset neg
      (fun i hi hmem => hdisj i hi (List.mem_toFinset.1 hmem))]

/-- C4: when the hit set equals exactly the (non-empty) positive identifier
set and the negatives are disjoint from it, accuracy and F1 both equal 1. -/
theorem evaluate_perfect_hits (pos neg : List String) (hpos : pos ≠ [])
    (hdisj : ∀ x ∈ neg, x ∉ pos) :
    accuracy_score (y_true pos neg) (y_pred pos.toFinset pos neg) = 1 ∧
      f1_score (y_true pos neg) (y_pred pos.toFinset pos neg) = 1 := by
  rw [y_pred_of_hits_eq_pos pos neg hdisj]
  have hplen : pos.length ≠ 0 := fun h => hpos (List.eq_nil_of_length_eq_zero h)
  have hcount : ∀ a b : Nat, countPairs (y_true pos neg) (y_true pos neg) a b =
      (if 1 = a ∧ 1 = b then pos.length else 0) +
        (if 0 = a ∧ 0 = b then neg.length else 0) := by
    intro a b
    unfold y_true
    rw [countPairs_append _ _ _ _ (by simp), countPairs_replicate, countPairs_replicate]
  have htp : countPairs (y_true pos neg) (y_true pos neg) 1 1 = pos.length := by
    rw [hcount]; simp
  have hfp : countPairs (y_true pos neg) (y_true pos neg) 0 1 = 0 := by
    rw [hcount]; simp
  have hfn : countPairs (y_true pos neg) (y_true pos neg) 1 0 = 0 := by
    rw [hcount]; simp
  have htn : countPairs (y_true pos neg) (y_true pos neg) 0 0 = neg.length := by
    rw [hcount]; simp
  have hlen : (y_true pos neg).length = pos.length + neg.length := by
    simp [y_true]
  have hprec : precision_score (y_true pos neg) (y_true pos neg) = 1 := by
    unfold precision_score
    rw [htp, hfp]
    simp only [Nat.add_zero, Nat.cast_zero, add_zero]
    rw [if_neg hplen, div_self (by exact_mod_cast hplen)]
  have hrec : recall_score (y_true pos neg) (y_true pos neg) = 1 := by
    unfold recall_score
    rw [htp, hfn]
    simp only [Nat.add_zero, Nat.cast_zero, add_zero]
    rw [if_neg hplen, div_self (by exact_mod_cast hplen)]
  constructor
  · unfold accuracy_score
    rw [htp, htn, hlen, if_neg (by omega)]
    rw [div_eq_one_iff_eq (by exact_mod_cast (by omega : pos.length + neg.length ≠ 0))]
    push_cast
    ring
  · unfold f1_score
    rw [hprec, hrec]
    norm_num

/-- Witness for C4 at a concrete positive and negative identifier list. -/
theorem evaluate_perfect_hits_witness :
    (["a"] : List String) ≠ [] ∧ (∀ x ∈ (["b"] : List String), x ∉ (["a"] : List String)) ∧
      (accuracy_score (y_true ["a"] ["b"]) (y_pred (["a"] : List String).toFinset ["a"] ["b"]) = 1 ∧
        f1_score (y_true ["a"] ["b"]) (y_pred (["a"] : List String).toFinset ["a"] ["b"]) = 1) :=
  ⟨by decide, by decide, evaluate_perfect_hits ["a"] ["b"] (by decide) (by decide)⟩

/-- C9: with a non-empty positive set and an empty hit set, recall is 0 and
precision falls in its zero-denominator case, which returns the documented
convention value 0 instead of raising. -/
theorem evaluate_empty_hits (pos neg : List String) (hpos : pos ≠ []) :
    recall_score (y_true pos neg) (y_pred ∅ pos neg) = 0 ∧
      precision_score (y_true pos neg) (y_pred ∅ pos neg) = 0 := by
  have hpred : y_pred ∅ pos neg =
      List.replicate pos.length 0 ++ List.replicate neg.length 0 := by
    unfold y_pred
    rw [map_predLabel_all_out ∅ pos (fun i _ hmem => absurd hmem (Finset.not_mem_empty i)),
      map_predLabel_all_out ∅ neg (fun i _ hmem => absurd hmem (Finset.not_mem_empty i))]
  have hcount : ∀ a b : Nat, countPairs (y_true pos neg) (y_pred ∅ pos neg) a b =
      (if 1 = a ∧ 0 = b then pos.length else 0) +
        (if 0 = a ∧ 0 = b then neg.length else 0) := by
    intro a b
    rw [hpred]
    unfold y_true
    rw [countPairs_append _ _ _ _ (by simp), countPairs_replicate, countPairs_replicate]
  have htp : countPairs (y_true pos neg) (y_pred ∅ pos neg) 1 1 = 0 := by
    rw [hcount]; simp
  have hfp : countPairs (y_true pos neg) (y_pred ∅ pos neg) 0 1 = 0 := by
    rw [hcount]; simp
  constructor
  · simp only [recall_score, htp]
    split <;> simp
  · simp only [precision_score, htp, hfp]
    simp

/-- Witness for C9 at a concrete positive and negative identifier list. -/
theorem evaluate_empty_hits_witness :
    (["a"] : List String) ≠ [] ∧
      (recall_score (y_true ["a"] ["b"]) (y_pred ∅ ["a"] ["b"]) = 0 ∧
        precision_score (y_true ["a"] ["b"]) (y_pred ∅ ["a"] ["b"]) = 0) :=
  ⟨by decide, evaluate_empty_hits ["a"] ["b"] (by decide)⟩

/-- Description predicate of `select_human_kunitz` and the positive branch
of `create_validation_sets`: the lower-cased description contains
`"kunitz"`. -/
def hasKunitz (r : Record) : Bool :=
  strContains (lowerStr r.description) "kunitz"

/-- The lower-cased description contains `"homo sapiens"`. -/
def hasHomoSapiens (r : Record) : Bool :=
  strContains (lowerStr r.description) "homo sapiens"

/-- Training predicate of `select_human_kunitz`: both `"kunitz"` and
`"homo sapiens"` occur in the lower-cased description. -/
def isHumanKunitz (r : Record) : Bool :=
  hasKunitz r && hasHomoSapiens r

/-- Embedding of `select_human_kunitz(fasta_file, outdir)`: filters the
records whose description matches both predicates and raises
`RuntimeError` when none does (the written-out FASTA file holds exactly
the returned records). -/
def select_human_kunitz (records : List Record) : Except String (List Record) :=
  let human_kunitz := records.filter isHumanKunitz
  if human_kunitz.isEmpty then
    Except.error "No human Kunitz sequences found in SwissProt."
  else Except.ok human_kunitz

/-- Modelled from the spec: the seeded pseudo-random generator behind
Python's `random` module.  Its exact stream (Mersenne Twister) lives
outside the repository; it is modelled by a 64-bit linear congruential
step, which preserves what the pipeline relies on — the stream is a
deterministic function of the seed. -/
def lcgNext (s : Nat) : Nat :=
  (6364136223846793005 * s + 1442695040888963407) % (2 ^ 64)

/-- Modelled from the spec: `random.sample(pool, k)` — a seeded
pseudo-random selection of `k` elements without replacement, raising
`ValueError` (here `none`) when `k` exceeds the population size.  Each
step draws one element at a pseudo-random index and removes it from the
pool; the generator state is threaded explicitly. -/
def pySampleGo : Nat → List Record → Nat → Option (List Record × Nat)
  | 0, _, s => some ([], s)
  | _ + 1, [], _ => none
  | k + 1, pool, s =>
    let s1 := lcgNext s
    let j := s1 % pool.length
    match pySampleGo k (pool.eraseIdx j) s1 with
    | some (rest, s2) => some ((pool.getD j default) :: rest, s2)
    | none => none

/-- Embedding of `create_validation_sets(fasta_file, outdir, n_negatives,
seed)`.  The extra argument `g` is the global PRNG state as it stands when
the function is entered; `random.seed(seed)` overwrites it with a state
derived from the seed alone, after which `random.sample` draws the
negatives.  Returns the positives, the negatives, the combined test set,
and the final PRNG state; `none` models an uncaught `ValueError` from
`random.sample`. -/
def create_validation_sets (records : List Record) (n_negatives seed g : Nat) :
    Option ((List Record × List Record × List Record) × Nat) :=
  let positives := records.filter (fun r => hasKunitz r && !hasHomoSapiens r)
  let others := records.filter (fun r => !hasKunitz r)
  let g1 := seed
  match pySampleGo (min n_negatives others.length) others g1 with
  | some (negatives, g2) => some ((positives, negatives, positives ++ negatives), g2)
  | none => none

theorem perm_getD_cons_eraseIdx {α : Type} (l : List α) (d : α) (j : Nat)
    (h : j < l.length) :
    l.Perm (l.getD j d :: l.eraseIdx j) := by
  induction l generalizing j with
  | nil => simp at h
  | cons a t ih =>
      cases j with
      | zero => simp
      | succ m =>
          have hm : m < t.length := by simpa using h
          have step : (a :: t).Perm (a :: (t.getD m d :: t.eraseIdx m)) :=
            (ih m hm).cons a
          have swap : (a :: t.getD m d :: t.eraseIdx m).Perm
              (t.getD m d :: a :: t.eraseIdx m) := List.Perm.swap _ _ _
          simpa using step.trans swap

theorem pySampleGo_le_length (k : Nat) (pool : List Record) (s : Nat)
    (h : k ≤ pool.length) :
    ∃ res g2, pySampleGo k pool s = some (res, g2) ∧ res.length = k ∧
      (res : Multiset Record) ≤ (pool : Multiset Record) := by
  induction k generalizing pool s with
  | zero => exact ⟨[], s, rfl, rfl, by simp⟩
  | succ m ih =>
      cases hp : pool with
      | nil => rw [hp] at h; exact absurd h (by simp)
      | cons r rs =>
          subst hp
          have hlen : 0 < (r :: rs).length := by simp
          have hj : lcgNext s % (r :: rs).length < (r :: rs).length := Nat.mod_lt _ hlen
          have herase : ((r :: rs).eraseIdx (lcgNext s % (r :: rs).length)).length =
              (r :: rs).length - 1 := by
            rw [List.length_eraseIdx]
            simp only [if_pos hj]
          have hm : m ≤ ((r :: rs).eraseIdx (lcgNext s % (r :: rs).length)).length := by
            rw [herase]
            simpa using Nat.le_of_succ_le_succ h
          obtain ⟨rest, g2, hgo, hrl, hsub⟩ :=
            ih ((r :: rs).eraseIdx (lcgNext s % (r :: rs).length)) (lcgNext s) hm
          refine ⟨(r :: rs).getD (lcgNext s % (r :: rs).length) default :: rest, g2, ?_,
            by simp [hrl], ?_⟩
          · simp only [pySampleGo]
            rw [hgo]
          · have hperm : ((r :: rs) : List Record).Perm
                ((r :: rs).getD (lcgNext s % (r :: rs).length) default ::
                  (r :: rs).eraseIdx (lcgNext s % (r :: rs).length)) :=
              perm_getD_cons_eraseIdx _ default _ hj
            calc ((r :: rs).getD (lcgNext s % (r :: rs).length) default :: rest :
                Multiset Record)
                = (r :: rs).getD (lcgNext s % (r :: rs).length) default ::ₘ
                  (rest : Multiset Record) := by
                  rw [Multiset.cons_coe]
              _ ≤ (r :: rs).getD (lcgNext s % (r :: rs).length) default ::ₘ
                  ((r :: rs).eraseIdx (lcgNext s % (r :: rs).length) : Multiset Record) :=
                  Multiset.cons_le_cons _ hsub
              _ = ((r :: rs) : Multiset Record) := by
                  rw [Multiset.cons_coe]
                  exact (Multiset.coe_eq_coe.2 hperm).symm

/-- Concrete record matching both training predicates. -/
def recPosHuman : Record := ⟨"P1", "Kunitz inhibitor Homo sapiens", "MAV"⟩

/-- Concrete record matching the keyword but not the organism. -/
def recPosOther : Record := ⟨"P2", "Kunitz inhibitor bovine", "MAV"⟩

/-- Concrete record matching neither predicate. -/
def recAlbumin : Record := ⟨"P3", "Serum albumin", "MAV"⟩

/-- A small concrete input collection for the witnesses. -/
def sampleRecords : List Record := [recPosHuman, recPosOther, recAlbumin]

/-- C5: with the same input ordering, requested count and seed, two
executions of `create_validation_sets` coincide — in particular they
select the identical negative sample.  The executions may start from
different carried-over pseudo-random states `g` and `g2`:
`random.seed(seed)` resets the generator, so the outcome is a function of
the input ordering, the count and the seed alone. -/
theorem create_validation_sets_deterministic (records : List Record)
    (n seed g g2 : Nat) :
    create_validation_sets records n seed g = create_validation_sets records n seed g2 :=
  rfl

/-- Witness for C5 at a concrete input and two distinct incoming states. -/
theorem create_validation_sets_deterministic_witness :
    create_validation_sets sampleRecords 1 42 0 = create_validation_sets sampleRecords 1 42 7 :=
  create_validation_sets_deterministic sampleRecords 1 42 0 7

/-- C6: `create_validation_sets` completes without error, the negative
sample is drawn without replacement (a sub-multiset of the pool of
records with no keyword match) and has exactly `min n (pool size)`
records; when the pool is smaller than `n`, every pool record is used —
silent truncation, not an error. -/
theorem create_validation_sets_negatives (records : List Record) (n seed g : Nat) :
    ∃ pos neg test g2,
      create_validation_sets records n seed g = some ((pos, neg, test), g2) ∧
        neg.length = min n (records.filter (fun r => !hasKunitz r)).length ∧
        (neg : Multiset Record) ≤ ((records.filter (fun r => !hasKunitz r)) : Multiset Record) ∧
        ((records.filter (fun r => !hasKunitz r)).length ≤ n →
          (neg : Multiset Record) =
            ((records.filter (fun r => !hasKunitz r)) : Multiset Record)) := by
  obtain ⟨res, g2, hgo, hlen, hsub⟩ :=
    pySampleGo_le_length (min n (records.filter (fun r => !hasKunitz r)).length)
      (records.filter (fun r => !hasKunitz r)) seed
      (Nat.min_le_right _ _)
  refine ⟨records.filter (fun r => hasKunitz r && !hasHomoSapiens r), res,
    records.filter (fun r => hasKunitz r && !hasHomoSapiens r) ++ res, g2, ?_, hlen, hsub, ?_⟩
  · unfold create_validation_sets
    dsimp only
    rw [hgo]
  · intro hle
    have hmin : min n (records.filter (fun r => !hasKunitz r)).length =
        (records.filter (fun r => !hasKunitz r)).length := Nat.min_eq_right hle
    apply Multiset.eq_of_le_of_card_le hsub
    rw [Multiset.coe_card, Multiset.coe_card, hlen, hmin]

/-- Witness for C6 at a concrete input whose pool is smaller than the
requested count. -/
theorem create_validation_sets_negatives_witness :
    ∃ pos neg test g2,
      create_validation_sets sampleRecords 5 42 0 = some ((pos, neg, test), g2) ∧
        neg.length = min 5 (sampleRecords.filter (fun r => !hasKunitz r)).length ∧
        (neg : Multiset Record) ≤
          ((sampleRecords.filter (fun r => !hasKunitz r)) : Multiset Record) ∧
        ((sampleRecords.filter (fun r => !hasKunitz r)).length ≤ 5 →
          (neg : Multiset Record) =
            ((sampleRecords.filter (fun r => !hasKunitz r)) : Multiset Record)) :=
  create_validation_sets_negatives sampleRecords 5 42 0

/-- C7: `select_human_kunitz` fails with a data error exactly when no
record matches both predicates; when at least one does, it returns
exactly the matching records. -/
theorem select_human_kunitz_error_iff (records : List Record) :
    ((∃ e, select_human_kunitz records = Except.error e) ↔
        ∀ r ∈ records, isHumanKunitz r = false) ∧
      ((∃ r ∈ records, isHumanKunitz r = true) →
        select_human_kunitz records = Except.ok (records.filter isHumanKunitz)) := by
  by_cases hemp : (records.filter isHumanKunitz).isEmpty
  · have hnil : records.filter isHumanKunitz = [] := by
      simpa [List.isEmpty_iff] using hemp
    have hall : ∀ r ∈ records, isHumanKunitz r = false := by
      intro r hr
      by_contra hne
      have hmem : r ∈ records.filter isHumanKunitz :=
        List.mem_filter.2 ⟨hr, by simpa using hne⟩
      rw [hnil] at hmem
      exact absurd hmem (List.not_mem_nil r)
    have herr : select_human_kunitz records =
        Except.error "No human Kunitz sequences found in SwissProt." := by
      unfold select_human_kunitz
      rw [if_pos hemp]
    refine ⟨⟨fun _ => hall, fun _ => ⟨_, herr⟩⟩, ?_⟩
    rintro ⟨r, hr, hrk⟩
    exact absurd hrk (by simp [hall r hr])
  · have hok : select_human_kunitz records = Except.ok (records.filter isHumanKunitz) := by
      unfold select_human_kunitz
      rw [if_neg hemp]
    refine ⟨⟨?_, ?_⟩, fun _ => hok⟩
    · rintro ⟨e, he⟩
      rw [hok] at he
      exact absurd he (by simp)
    · intro hall
      have hnil : records.filter isHumanKunitz = [] :=
        List.filter_eq_nil_iff.2 (fun r hr => by simp [hall r hr])
      rw [hnil] at hemp
      exact absurd rfl hemp

/-- Witness for C7 at a concrete input holding a matching record. -/
theorem select_human_kunitz_error_iff_witness :
    ((∃ e, select_human_kunitz sampleRecords = Except.error e) ↔
        ∀ r ∈ sampleRecords, isHumanKunitz r = false) ∧
      ((∃ r ∈ sampleRecords, isHumanKunitz r = true) →
        select_human_kunitz sampleRecords = Except.ok (sampleRecords.filter isHumanKunitz)) :=
  select_human_kunitz_error_iff sampleRecords

/-- C10: no record of the validation positives, negatives or combined
test set matches both training predicates; hence every test record
differs from every record of the training selection, and the positives
and negatives are disjoint. -/
theorem create_validation_sets_disjoint_from_training (records : List Record)
    (n seed g : Nat) (pos neg test : List Record) (g2 : Nat)
    (h : create_validation_sets records n seed g = some ((pos, neg, test), g2)) :
    (∀ r ∈ test, ¬(hasKunitz r = true ∧ hasHomoSapiens r = true)) ∧
      (∀ r ∈ test, ∀ t ∈ records.filter isHumanKunitz, r ≠ t) ∧
      (∀ r ∈ pos, r ∉ neg) := by
  unfold create_validation_sets at h
  dsimp only at h
  cases hgo : pySampleGo (min n (records.filter (fun r => !hasKunitz r)).length)
      (records.filter (fun r => !hasKunitz r)) seed with
  | none => rw [hgo] at h; exact absurd h (by simp)
  | some out =>
      rw [hgo] at h
      obtain ⟨res, gout⟩ := out
      have hpos : pos = records.filter (fun r => hasKunitz r && !hasHomoSapiens r) := by
        have := (Option.some_injective _ h).symm
        exact congrArg (fun q => q.1.1) this
      have hneg : neg = res := by
        have := (Option.some_injective _ h).symm
        exact congrArg (fun q => q.1.2.1) this
      have htest : test = pos ++ neg := by
        have := (Option.some_injective _ h).symm
        have h2 := congrArg (fun q => q.1.2.2) this
        simp only at h2
        rw [h2, hpos, hneg]
      obtain ⟨res2, g3, hgo2, hlen2, hsub2⟩ :=
        pySampleGo_le_length (min n (records.filter (fun r => !hasKunitz r)).length)
          (records.filter (fun r => !hasKunitz r)) seed (Nat.min_le_right _ _)
      have hres2 : res2 = res := by
        rw [hgo] at hgo2
        exact (congrArg (fun q => q.1) (Option.some_injective _ hgo2)).symm
      have hnegpool : ∀ r ∈ neg, r ∈ records.filter (fun r => !hasKunitz r) := by
        intro r hr
        rw [hneg] at hr
        rw [hres2] at hsub2
        have : r ∈ ((records.filter (fun r => !hasKunitz r)) : Multiset Record) :=
          Multiset.mem_of_le hsub2 (by simpa using hr)
        simpa using this
      have hnegk : ∀ r ∈ neg, hasKunitz r = false := by
        intro r hr
        have := (List.mem_filter.1 (hnegpool r hr)).2
        simpa using this
      have hposk : ∀ r ∈ pos, hasKunitz r = true ∧ hasHomoSapiens r = false := by
        intro r hr
        rw [hpos] at hr
        have := (List.mem_filter.1 hr).2
        simpa using this
      have hnoboth : ∀ r ∈ test, ¬(hasKunitz r = true ∧ hasHomoSapiens r = true) := by
        intro r hr
        rw [htest] at hr
        rcases List.mem_append.1 hr with hrp | hrn
        · rintro ⟨-, hh⟩
          rw [(hposk r hrp).2] at hh
          exact Bool.false_ne_true hh
        · rintro ⟨hk, -⟩
          rw [hnegk r hrn] at hk
          exact Bool.false_ne_true hk
      refine ⟨hnoboth, ?_, ?_⟩
      · intro r hr t ht heq
        have htk : isHumanKunitz t = true := (List.mem_filter.1 ht).2
        have : hasKunitz t = true ∧ hasHomoSapiens t = true := by
          simpa [isHumanKunitz, Bool.and_eq_true] using htk
        exact hnoboth r hr (heq ▸ this)
      · intro r hrp hrn
        have hk : hasKunitz r = true := (hposk r hrp).1
        have hk2 : hasKunitz r = false := hnegk r hrn
        rw [hk] at hk2
        exact Bool.noConfusion hk2

/-- Witness for C10 at a concrete input. -/
theorem create_validation_sets_disjoint_from_training_witness :
    (∀ r ∈ ([recPosOther, recAlbumin] : List Record),
        ¬(hasKunitz r = true ∧ hasHomoSapiens r = true)) ∧
      (∀ r ∈ ([recPosOther, recAlbumin] : List Record),
        ∀ t ∈ sampleRecords.filter isHumanKunitz, r ≠ t) ∧
      (∀ r ∈ ([recPosOther] : List Record), r ∉ ([recAlbumin] : List Record)) :=
  create_validation_sets_disjoint_from_training sampleRecords 1 42 0
    [recPosOther] [recAlbumin] [recPosOther, recAlbumin] (lcgNext 42) (by decide)

end HmmPipeline
